import Mathlib

/-!
# Verification of the eli5 formatters core

A shallow embedding of the explanation-rendering core of the repository:
the span merger and span preparer (`eli5.formatters.text_helpers`), the
weight-range aggregator (`max_or_0` of `eli5.formatters.utils` and
`get_weight_range` of `eli5.formatters.html`), the color encoder
(`weight_color_hsl`, `remaining_weight_color_hsl`, `format_hsl`, `_hue`),
and the structural skeletons of the text and HTML renderers
(`format_as_text` of `eli5.formatters.text`, `format_as_html` of
`eli5.formatters.html`).

Scalar weights are embedded as rationals (the Python code uses floats; all
claims under test are exact at rational inputs).  The sub-linear intensity
curve `rel_weight ** 0.7` is embedded with the real-number power, so the
numeric half of the color encoder lives in `ℝ`.

Files `eli5/formatters/text_helpers.py`, `eli5/formatters/utils.py` and
`eli5/base.py` are not part of the sources at hand; the definitions taken
from them are modelled from the specification (and, where the
specification conflicts with the repository test
`test_prepare_weighted_spans`, from that test), and each such definition
says so in its doc comment.
-/

/-! ## Data model (eli5.base, modelled) -/

/-- Modelled from the spec: `FeatureWeight` of `eli5/base.py` (absent from
the sources): a feature identifier plus a scalar weight.  The optional
value / std fields play no role in the claims and are omitted. -/
structure FeatureWeight where
  feature : String
  weight : ℚ
deriving DecidableEq, Repr

/-- Modelled from the spec: `FeatureWeights` of `eli5/base.py` (absent
from the sources): ordered positive and negative lists, either of which
may be absent (the HTML formatter guards with `lst or []`), plus counts of
elided features. -/
structure FeatureWeights where
  pos : Option (List FeatureWeight)
  neg : Option (List FeatureWeight)
  pos_remaining : ℕ := 0
  neg_remaining : ℕ := 0
deriving DecidableEq, Repr

/-- One weighted-span entry: a token, its half-open character ranges in
the document, and one scalar weight shared by all the ranges. -/
structure SpanEntry where
  feature : String
  ranges : List (ℕ × ℕ)
  weight : ℚ
deriving DecidableEq, Repr

/-- Modelled from the spec: `WeightedSpans` of `eli5/base.py` (absent from
the sources), as constructed by the repository test
`test_prepare_weighted_spans`: an analyzer tag, the document text, the
list of weighted-span entries, and an optional vectorizer name (read by
`render_targets_weighted_spans` in `eli5/formatters/html.py`). -/
structure WeightedSpans where
  analyzer : String
  document : String
  weighted_spans : List SpanEntry
  vec_name : Option String := none
deriving DecidableEq, Repr

/-- Modelled from the spec: `PreparedWeightedSpans` of
`eli5/formatters/text_helpers.py` (absent from the sources): the
originating span set, the dense per-character weights, and the shared
weight range. -/
structure PreparedWeightedSpans where
  weighted_spans : WeightedSpans
  char_weights : List ℚ
  weight_range : ℚ
deriving DecidableEq, Repr

/-- Modelled from the spec: `TargetExplanation` of `eli5/base.py` (absent
from the sources): a target label, its feature weights, and zero or more
weighted-span groups (the empty list stands for the falsy `None`). -/
structure TargetExplanation where
  target : String
  feature_weights : FeatureWeights
  weighted_spans : List WeightedSpans := []
deriving DecidableEq, Repr

/-- Modelled from the spec: `FeatureImportances` of `eli5/base.py` (absent
from the sources). -/
structure FeatureImportances where
  importances : List FeatureWeight
  remaining : ℕ := 0
deriving DecidableEq, Repr

/-- Modelled from the spec: the transition-feature matrix of `eli5/base.py`
(absent from the sources); its contents are only ever handed to the
external `tabulate` library. -/
structure TransitionFeatures where
  coef : List (List ℚ)
  class_names : List String
deriving DecidableEq, Repr

/-- Modelled from the spec: the decision-tree payload of `eli5/base.py`
(absent from the sources); its contents are only ever handed to the
external `tree2text` / graphviz renderers. -/
structure TreeInfo where
  graphviz : Option String := none
deriving DecidableEq, Repr

/-- Modelled from the spec: the root `Explanation` of `eli5/base.py`
(absent from the sources).  String-valued fields use `Option String`,
whose Python truthiness (absent, or present but empty) is captured by
`truthyStr` below. -/
structure Explanation where
  method : Option String := none
  description : Option String := none
  error : Option String := none
  is_regression : Bool := false
  targets : List TargetExplanation := []
  feature_importances : Option FeatureImportances := none
  decision_tree : Option TreeInfo := none
  transition_features : Option TransitionFeatures := none

/-- Python truthiness of an optional string: `None` and `""` are falsy. -/
def truthyStr : Option String → Bool
  | none => false
  | some s => !s.isEmpty

/-! ## Span merger (eli5.formatters.text_helpers.get_char_weights, modelled) -/

/-- The bulk update `char_weights[start:end] += weight` on a dense
weight list. -/
def addRange (l : List ℚ) (s e : ℕ) (w : ℚ) : List ℚ :=
  l.mapIdx fun i x => if s ≤ i ∧ i < e then x + w else x

/-- Total number of characters covered by the ranges of one entry
(counted with multiplicity; ranges of one entry are disjoint by the data
model invariant). -/
def coveredChars (entry : SpanEntry) : ℕ :=
  (entry.ranges.map fun r => r.2 - r.1).sum

/-- Effective weight of an entry: divided by the number of characters the
entry covers when density is preserved, unchanged otherwise. -/
def effWeight (preserve_density : Bool) (entry : SpanEntry) : ℚ :=
  if preserve_density then entry.weight / (coveredChars entry : ℚ)
  else entry.weight

/-- Modelled from the spec: `get_char_weights` of
`eli5/formatters/text_helpers.py` (absent from the sources).  Per section
4.1 of the specification: start from a zero array of the document length
and, for every entry and every one of its half-open ranges, add the
possibly density-divided weight of the entry to the covered positions. -/
def get_char_weights (ws : WeightedSpans) (preserve_density : Bool) : List ℚ :=
  ws.weighted_spans.foldl
    (fun acc entry =>
      entry.ranges.foldl
        (fun acc r => addRange acc r.1 r.2 (effWeight preserve_density entry))
        acc)
    (List.replicate ws.document.length 0)

/-- A position is covered by an entry when some half-open range of the
entry contains it. -/
def coversIdx (entry : SpanEntry) (i : ℕ) : Prop :=
  ∃ r ∈ entry.ranges, r.1 ≤ i ∧ i < r.2

instance (entry : SpanEntry) (i : ℕ) : Decidable (coversIdx entry i) := by
  unfold coversIdx; infer_instance

/-- Pairwise disjointness of the half-open ranges of one entry (the data
model invariant: discontiguous occurrences of one token). -/
def disjointRanges (entry : SpanEntry) : Prop :=
  entry.ranges.Pairwise fun r₁ r₂ => r₁.2 ≤ r₂.1 ∨ r₂.2 ≤ r₁.1

instance (entry : SpanEntry) : Decidable (disjointRanges entry) := by
  unfold disjointRanges; infer_instance

/-! ## Weight range aggregator -/

/-- Modelled from the spec: `max_or_0` of `eli5/formatters/utils.py`
(absent from the sources): the maximum of the absolute values of a list
of scalars, and `0` for the empty list. -/
def max_or_0 (xs : List ℚ) : ℚ :=
  match xs with
  | [] => 0
  | x :: rest => rest.foldl (fun acc y => max acc |y|) |x|

/-- `get_weight_range` of `eli5/formatters/html.py`: the maximum absolute
feature weight over the pos and neg lists together (either list may be
absent). -/
def get_weight_range (weights : FeatureWeights) : ℚ :=
  max_or_0 ((weights.pos.getD [] ++ weights.neg.getD []).map fun fw => |fw.weight|)

/-! ## Span preparer (eli5.formatters.text_helpers.prepare_weighted_spans, modelled) -/

/-- Modelled from the spec: `prepare_weighted_spans` of
`eli5/formatters/text_helpers.py` (absent from the sources).  Per section
4.2 of the specification each span set is merged and gets a local weight
range `max_or_0` of its character weights; the shared weight range is the
maximum of the local ranges over one sharing group, with fallback 1 when
that maximum is 0.  The specification words the sharing groups as "all
span-sets whose vec_name matches", but the repository test
`test_prepare_weighted_spans` fixes the groups as "all span-sets at the
same index position in their target lists"; the model follows the test.  The locals of the Python function are split
into the named definitions `targetsCharWeights` (per-target merged
character weights, `none` for targets without spans), `maxSpanIdx` and
`spansWeightRanges` below, composed by `prepare_weighted_spans`. -/
def targetsCharWeights (targets : List TargetExplanation) (pd : Bool) :
    List (Option (List (List ℚ))) :=
  targets.map fun t =>
    if t.weighted_spans.isEmpty then none
    else some (t.weighted_spans.map fun ws => get_char_weights ws pd)

/-- The local `max_idx` of the preparer: the span-set count of the
longest target. -/
def maxSpanIdx (targets : List TargetExplanation) (pd : Bool) : ℕ :=
  ((targetsCharWeights targets pd).map fun cw => (cw.getD []).length).foldl
    max 0

/-- The local `spans_weight_ranges` of the preparer: for every index
below `maxSpanIdx`, the maximum of the local ranges of the span sets at
that index over all targets, with fallback 1 when that maximum is 0. -/
def spansWeightRanges (targets : List TargetExplanation) (pd : Bool) :
    List ℚ :=
  (List.range (maxSpanIdx targets pd)).map fun idx =>
    let locals := (targetsCharWeights targets pd).filterMap fun cw =>
      ((cw.getD []).get? idx).map fun char_weights => max_or_0 char_weights
    let m := max_or_0 locals
    if m = 0 then 1 else m

def prepare_weighted_spans (targets : List TargetExplanation)
    (preserve_density : Bool) : List (Option (List PreparedWeightedSpans)) :=
  (targets.zip (targetsCharWeights targets preserve_density)).map fun p =>
    match p.2 with
    | none => none
    | some cws => some
        ((p.1.weighted_spans.zip
            (cws.zip (spansWeightRanges targets preserve_density))).map fun q =>
          { weighted_spans := q.1, char_weights := q.2.1,
            weight_range := q.2.2 })

/-! ## Color encoder (eli5.formatters.html) -/

/-- `_hue` of `eli5/formatters/html.py`: 120 for strictly positive
weights, 0 otherwise. -/
def _hue (weight : ℚ) : ℕ := if 0 < weight then 120 else 0

/-- `weight_color_hsl` of `eli5/formatters/html.py`: sign-based hue, full
saturation, and a lightness driven by the sub-linear relative intensity
`(|weight| / weight_range) ** 0.7` (a real-number power). -/
noncomputable def weight_color_hsl (weight weight_range : ℚ)
    (min_lightness : ℚ) : ℕ × ℚ × ℝ :=
  let hue := _hue weight
  let saturation : ℚ := 1
  let rel_weight : ℝ := (|(weight : ℝ)| / (weight_range : ℝ)) ^ (0.7 : ℝ)
  let lightness : ℝ := 1.0 - (1 - (min_lightness : ℝ)) * rel_weight
  (hue, saturation, lightness)

/-- Python `min(ws, key=abs)` over the weights of a feature-weight list:
the first weight of smallest absolute value (0 for the empty list, which
the callers never reach). -/
def argminAbs (ws : List FeatureWeight) : ℚ :=
  match ws with
  | [] => 0
  | fw :: rest =>
    rest.foldl (fun acc fw => if |fw.weight| < |acc| then fw.weight else acc) fw.weight

/-- The `pos_neg` selector of `remaining_weight_color_hsl` (the Python
code indexes a two-entry dict with it). -/
inductive PosNeg | pos | neg
deriving DecidableEq, Repr

/-- The sign the `pos_neg` selector stands for. -/
def PosNeg.sign : PosNeg → ℚ
  | .pos => 1
  | .neg => -1

/-- `remaining_weight_color_hsl` of `eli5/formatters/html.py`: the color
of the "remaining features" row, with fallbacks for the empty-weights and
zero-range cases. -/
noncomputable def remaining_weight_color_hsl (ws : List FeatureWeight)
    (weight_range : ℚ) (pos_neg : PosNeg) : ℕ × ℚ × ℝ :=
  if ws = [] ∧ weight_range = 0 then weight_color_hsl pos_neg.sign 1 0.8
  else if ws = [] then weight_color_hsl (pos_neg.sign * weight_range) weight_range 0.8
  else weight_color_hsl (argminAbs ws) weight_range 0.8

/-! ## String formatting (Python format specs, on rationals) -/

/-- Zero-pad a digit string on the left to the given width. -/
def padZeros (w : ℕ) (s : String) : String :=
  String.mk (List.replicate (w - s.length) '0') ++ s

/-- Python format spec `.Nf`: fixed-point rendering with `nd` digits
after the decimal point. -/
def formatFixed (nd : ℕ) (q : ℚ) : String :=
  let n : ℤ := round (q * (10 : ℚ) ^ nd)
  let sgn := if n < 0 then "-" else ""
  let m := n.natAbs
  if nd = 0 then sgn ++ toString m
  else sgn ++ toString (m / 10 ^ nd) ++ "." ++ padZeros nd (toString (m % 10 ^ nd))

/-- Python format spec `.2%`: the value times 100, two decimals, a
percent sign. -/
def formatPct2 (q : ℚ) : String := formatFixed 2 (q * 100) ++ "%"

/-- `format_hsl` of `eli5/formatters/html.py` on rational components: the
hue unrounded, saturation and lightness as two-decimal percentages. -/
def format_hsl (hue : ℕ) (saturation lightness : ℚ) : String :=
  "hsl(" ++ toString hue ++ ", " ++ formatPct2 saturation ++ ", " ++
    formatPct2 lightness ++ ")"

/-- `_weight_opacity` of `eli5/formatters/html.py`. -/
def _weight_opacity (weight weight_range : ℚ) : String :=
  formatFixed 2 (0.8 + (1 - 0.8) * (|weight| / weight_range))

/-! ## HTML escaping and token colorization (eli5.formatters.html) -/

/-- Character table of `cgi.escape(text, quote=True)`. -/
def escChar : Char → String
  | '&' => "&amp;"
  | '<' => "&lt;"
  | '>' => "&gt;"
  | '"' => "&quot;"
  | c => String.singleton c

/-- `html_escape` of `eli5/formatters/html.py`: `cgi.escape` with
quoting enabled. -/
def html_escape (text : String) : String :=
  String.join (text.toList.map escChar)

/-- `np.isclose(weight, 0.)`: within the default absolute tolerance
`1e-8` of zero. -/
def iscloseZero (weight : ℚ) : Bool :=
  decide (|weight| ≤ 1 / 100000000)

/-- `_colorize` of `eli5/formatters/html.py`.  The CSS color of the
non-near-zero branch is `format_hsl(weight_color_hsl(weight, weight_range,
min_lightness=0.6))`, whose lightness is a transcendental real; the
rendered color string is therefore a parameter `colorFor`, so every fact
below holds for every possible float rendering of it. -/
def _colorize (colorFor : ℚ → ℚ → String) (token : String)
    (weight weight_range : ℚ) : String :=
  let tok := html_escape token
  if iscloseZero weight then
    "<span style=\"opacity: " ++ _weight_opacity weight weight_range ++
      "\">" ++ tok ++ "</span>"
  else
    "<span style=\"background-color: " ++ colorFor weight weight_range ++
      "; opacity: " ++ _weight_opacity weight weight_range ++ "\" title=\"" ++
      formatFixed 3 weight ++ "\">" ++ tok ++ "</span>"

/-- Which boundary of the feature name a run of spaces sits at. -/
inductive Side | left | right | center
deriving DecidableEq, Repr

/-- Modelled from the spec: `replace_spaces` of
`eli5/formatters/utils.py` (absent from the sources).  Per section 4.5 of
the specification, runs of space characters at the boundaries of a
feature name are replaced through the given replacer; a space-only name
is replaced as one central run. -/
def replace_spaces (s : String) (repl : ℕ → Side → String) : String :=
  let cs := s.toList
  if cs ≠ [] ∧ cs.all (· = ' ') then repl cs.length Side.center
  else
    let n₁ := (cs.takeWhile (· = ' ')).length
    let n₂ := (cs.reverse.takeWhile (· = ' ')).length
    (if n₁ ≠ 0 then repl n₁ Side.left else "") ++
      String.mk ((cs.drop n₁).take (cs.length - n₁ - n₂)) ++
      (if n₂ ≠ 0 then repl n₂ Side.right else "")

/-- The space replacer inside `_format_single_feature` of
`eli5/formatters/html.py`: a span with a hue-matched background holding
em-space glyphs. -/
def featureReplacer (weight : ℚ) (n_spaces : ℕ) (side : Side) : String :=
  let m := "0.1em"
  let margins : String × String :=
    match side with
    | Side.left => (m, "0")
    | Side.right => ("0", m)
    | Side.center => (m, m)
  let style := "background-color: hsl(" ++ toString (_hue weight) ++
    ", 80%, 70%)" ++ "; " ++ "margin: 0 " ++ margins.1 ++ " 0 " ++ margins.2
  let title := if n_spaces = 1 then "A space symbol"
    else toString n_spaces ++ " space symbols"
  "<span style=\"" ++ style ++ "\" title=\"" ++ title ++ "\">" ++
    String.join (List.replicate n_spaces "&emsp;") ++ "</span>"

/-- `_format_single_feature` of `eli5/formatters/html.py`: escape the
feature name, then (when space highlighting is on) replace boundary space
runs with highlighted glyph spans. -/
def _format_single_feature (feature : String) (weight : ℚ)
    (hl_spaces : Bool) : String :=
  let f := html_escape feature
  if !hl_spaces then f
  else replace_spaces f (featureReplacer weight)

/-! ## Text renderer dispatcher (eli5.formatters.text.format_as_text) -/

/-- The recognized field-selection values of the formatters. -/
inductive ExplField
  | method | description | transition_features | targets
  | feature_importances | decision_tree
deriving DecidableEq, Repr

/-- Python truthiness of `getattr(expl, key, None)` for each recognized
field: optional strings are falsy when absent or empty, the target list
when empty, the object-valued fields when absent. -/
def fieldTruthy (expl : Explanation) : ExplField → Bool
  | ExplField.method => truthyStr expl.method
  | ExplField.description => truthyStr expl.description
  | ExplField.transition_features => expl.transition_features.isSome
  | ExplField.targets => !expl.targets.isEmpty
  | ExplField.feature_importances => expl.feature_importances.isSome
  | ExplField.decision_tree => expl.decision_tree.isSome

/-- `_method_lines` of `eli5/formatters/text.py`. -/
def _method_lines (expl : Explanation) : List String :=
  ["Explained as: " ++ expl.method.getD ""]

/-- `_description_lines` of `eli5/formatters/text.py`. -/
def _description_lines (expl : Explanation) : List String :=
  [expl.description.getD ""]

/-- `_error_lines` of `eli5/formatters/text.py`. -/
def _error_lines (expl : Explanation) : List String :=
  ["Error: " ++ expl.error.getD ""]

/-- The body renderers of the four blocks whose content depends on code
outside the sources at hand (the external `tabulate` and
graphviz/`tree2text` collaborators and the table helpers): the dispatcher
of `format_as_text` is verified for every such body. -/
structure BlockRenderers where
  targetsLines : Explanation → Bool → List String
  fiLines : Explanation → Bool → List String
  treeLines : Explanation → List String
  tfLines : Explanation → List String

/-- The `for key in show` loop of `format_as_text` of
`eli5/formatters/text.py`: skip falsy fields, and extend the line list
through the sequence of key tests, in source order. -/
def formatTextLoop (ext : BlockRenderers) (expl : Explanation)
    (hl_spaces : Bool) : List ExplField → List String
  | [] => []
  | key :: rest =>
    (if !fieldTruthy expl key then []
     else
       (if key = ExplField.method then _method_lines expl else []) ++
       (if key = ExplField.description then _description_lines expl else []) ++
       (if key = ExplField.transition_features then ext.tfLines expl else []) ++
       (if key = ExplField.targets then ext.targetsLines expl hl_spaces else []) ++
       (if key = ExplField.feature_importances then ext.fiLines expl hl_spaces
        else []) ++
       (if key = ExplField.decision_tree then ext.treeLines expl else [])) ++
    formatTextLoop ext expl hl_spaces rest

/-- The line accumulator of `format_as_text` of `eli5/formatters/text.py`:
the error block first whenever the error field is truthy, then the
selection loop. -/
def formatAsTextLines (ext : BlockRenderers) (expl : Explanation)
    (shown : List ExplField) (hl_spaces : Bool) : List String :=
  (if truthyStr expl.error then _error_lines expl else []) ++
    formatTextLoop ext expl hl_spaces shown

/-- `format_as_text` of `eli5/formatters/text.py`: the collected lines
joined with newlines. -/
def format_as_text (ext : BlockRenderers) (expl : Explanation)
    (shown : List ExplField) (hl_spaces : Bool) : String :=
  String.intercalate "\n" (formatAsTextLines ext expl shown hl_spaces)

/-! ## HTML renderer (eli5.formatters.html.format_as_html) -/

/-- `render_weighted_spans` of `eli5/formatters/html.py`: one colorized
span per document character, zipped with the merged character weights. -/
def render_weighted_spans (colorFor : ℚ → ℚ → String)
    (pws : PreparedWeightedSpans) : String :=
  String.join
    ((pws.weighted_spans.document.toList.zip pws.char_weights).map fun p =>
      _colorize colorFor (String.singleton p.1) p.2 pws.weight_range)

/-- `render_targets_weighted_spans` of `eli5/formatters/html.py`: per
target, the prepared span sets rendered and joined with `<br/>`, each
prefixed with its bold vectorizer name when that name is truthy. -/
def render_targets_weighted_spans (colorFor : ℚ → ℚ → String)
    (targets : List TargetExplanation) (preserve_density : Bool) :
    List (Option String) :=
  (prepare_weighted_spans targets preserve_density).map fun pws_lst =>
    pws_lst.map fun l =>
      String.intercalate "<br/>"
        (l.map fun pws =>
          (match pws.weighted_spans.vec_name with
           | some v => if v.isEmpty then "" else "<b>" ++ v ++ ":</b> "
           | none => "") ++ render_weighted_spans colorFor pws)

/-- The computed arguments `format_as_html` of `eli5/formatters/html.py`
hands to the external `explain.html` template (the template itself and the
`merge_weighted_spans_others` helper are external to the sources at hand;
the constant style strings are left out). -/
structure TemplateArgs where
  include_styles : Bool
  force_weights : Bool
  hl_spaces : Bool
  horizontal_layout : Bool
  any_weighted_spans : Bool
  feat_imp_weight_range : ℚ
  target_weight_range : ℚ
  rendered_weighted_spans : List (Option String)

/-- `format_as_html` of `eli5/formatters/html.py`, embedded as the
template-argument computation; in particular the horizontal layout flag
is forced off when there is exactly one target. -/
def format_as_html (colorFor : ℚ → ℚ → String) (expl : Explanation)
    (include_styles force_weights : Bool) (preserve_density : Bool)
    (hl_spaces : Bool) (horizontal_layout : Bool) : TemplateArgs :=
  let targets := expl.targets
  let horizontal_layout := if targets.length = 1 then false
    else horizontal_layout
  { include_styles := include_styles
    force_weights := force_weights
    hl_spaces := hl_spaces
    horizontal_layout := horizontal_layout
    any_weighted_spans := targets.any fun t => !t.weighted_spans.isEmpty
    feat_imp_weight_range :=
      max_or_0 (((expl.feature_importances.map
        FeatureImportances.importances).getD []).map fun fw => |fw.weight|)
    target_weight_range :=
      max_or_0 (targets.map fun t => get_weight_range t.feature_weights)
    rendered_weighted_spans :=
      render_targets_weighted_spans colorFor targets preserve_density }

/-! ## Helper lemmas: the absolute-maximum fold -/

lemma foldl_max_abs_spec (xs : List ℚ) (init : ℚ) :
    (xs.foldl (fun acc y => max acc |y|) init = init ∨
      ∃ x ∈ xs, xs.foldl (fun acc y => max acc |y|) init = |x|) ∧
    init ≤ xs.foldl (fun acc y => max acc |y|) init ∧
    ∀ x ∈ xs, |x| ≤ xs.foldl (fun acc y => max acc |y|) init := by
  induction xs generalizing init with
  | nil => simp
  | cons a l ih =>
    obtain ⟨ih₁, ih₂, ih₃⟩ := ih (max init |a|)
    simp only [List.foldl_cons]
    refine ⟨?_, ?_, ?_⟩
    · rcases ih₁ with h | ⟨x, hx, h⟩
      · rcases le_total |a| init with hle | hle
        · exact Or.inl (by rw [h, max_eq_left hle])
        · exact Or.inr ⟨a, List.mem_cons_self a l, by rw [h, max_eq_right hle]⟩
      · exact Or.inr ⟨x, List.mem_cons_of_mem a hx, h⟩
    · exact le_trans (le_max_left _ _) ih₂
    · intro x hx
      rcases List.mem_cons.mp hx with rfl | hx
      · exact le_trans (le_max_right _ _) ih₂
      · exact ih₃ x hx

lemma max_or_0_le (xs : List ℚ) (x : ℚ) (hx : x ∈ xs) : |x| ≤ max_or_0 xs := by
  cases xs with
  | nil => cases hx
  | cons a l =>
    rcases List.mem_cons.mp hx with rfl | hx
    · exact (foldl_max_abs_spec l |x|).2.1
    · exact (foldl_max_abs_spec l |a|).2.2 x hx

lemma max_or_0_attained (xs : List ℚ) (hxs : xs ≠ []) :
    ∃ x ∈ xs, max_or_0 xs = |x| := by
  cases xs with
  | nil => exact absurd rfl hxs
  | cons a l =>
    rcases (foldl_max_abs_spec l |a|).1 with h | ⟨x, hx, h⟩
    · exact ⟨a, List.mem_cons_self a l, h⟩
    · exact ⟨x, List.mem_cons_of_mem a hx, h⟩

lemma max_or_0_nonneg (xs : List ℚ) : 0 ≤ max_or_0 xs := by
  cases xs with
  | nil => exact le_refl 0
  | cons a l =>
    exact le_trans (abs_nonneg a) (max_or_0_le (a :: l) a (List.mem_cons_self a l))

/-- C5: `max_or_0` returns 0 on the empty list and the maximum absolute
value on a non-empty list (`max_or_0 [] = 0`, `max_or_0 [-2, 1, -5] = 5`),
and consequently `get_weight_range` is the maximum absolute weight over
the pos and neg lists together, 0 when both are empty or absent. -/
theorem max_or_0_and_get_weight_range_spec :
    (max_or_0 [] = 0 ∧ max_or_0 [-2, 1, -5] = 5) ∧
    (∀ xs : List ℚ, xs ≠ [] →
      ∃ x ∈ xs, max_or_0 xs = |x| ∧ ∀ y ∈ xs, |y| ≤ |x|) ∧
    (∀ w : FeatureWeights, w.pos.getD [] = [] → w.neg.getD [] = [] →
      get_weight_range w = 0) ∧
    (∀ w : FeatureWeights, ∀ fw ∈ w.pos.getD [] ++ w.neg.getD [],
      |fw.weight| ≤ get_weight_range w) ∧
    (∀ w : FeatureWeights, w.pos.getD [] ++ w.neg.getD [] ≠ [] →
      ∃ fw ∈ w.pos.getD [] ++ w.neg.getD [],
        get_weight_range w = |fw.weight|) := by
  refine ⟨⟨rfl, by decide⟩, ?_, ?_, ?_, ?_⟩
  · intro xs hxs
    obtain ⟨x, hx, hmax⟩ := max_or_0_attained xs hxs
    exact ⟨x, hx, hmax, fun y hy => hmax ▸ max_or_0_le xs y hy⟩
  · intro w hpos hneg
    simp [get_weight_range, hpos, hneg, max_or_0]
  · intro w fw hfw
    have h : |fw.weight| ∈ (w.pos.getD [] ++ w.neg.getD []).map
        fun fw => |fw.weight| := List.mem_map_of_mem _ hfw
    simpa [get_weight_range, abs_abs, List.map_append] using max_or_0_le _ _ h
  · intro w hne
    have hmapne : (w.pos.getD [] ++ w.neg.getD []).map (fun fw => |fw.weight|) ≠ [] := by
      simpa using hne
    obtain ⟨x, hx, hmax⟩ := max_or_0_attained _ hmapne
    obtain ⟨fw, hfw, rfl⟩ := List.mem_map.mp hx
    exact ⟨fw, hfw, by simpa [get_weight_range, abs_abs, List.map_append] using hmax⟩

/-- Witness for C5 at concrete inputs: the empty list, the sample list
`[-2, 1, -5]`, and a concrete `FeatureWeights` value. -/
theorem max_or_0_and_get_weight_range_spec_witness :
    (∃ x ∈ [(-2 : ℚ), 1, -5], max_or_0 [(-2 : ℚ), 1, -5] = |x| ∧
      ∀ y ∈ [(-2 : ℚ), 1, -5], |y| ≤ |x|) ∧
    get_weight_range { pos := some [], neg := none } = 0 ∧
    (∃ fw ∈ ({ pos := some [⟨"a", 2⟩], neg := some [⟨"b", -3⟩] } :
        FeatureWeights).pos.getD [] ++
        ({ pos := some [⟨"a", 2⟩], neg := some [⟨"b", -3⟩] } :
        FeatureWeights).neg.getD [],
      get_weight_range { pos := some [⟨"a", 2⟩], neg := some [⟨"b", -3⟩] } =
        |fw.weight|) :=
  ⟨max_or_0_and_get_weight_range_spec.2.1 _ (by decide),
   max_or_0_and_get_weight_range_spec.2.2.1 _ rfl rfl,
   max_or_0_and_get_weight_range_spec.2.2.2.2 _ (by decide)⟩

/-! ## Sample data: the inputs of the repository test -/

/-- The first span set of the repository test: document "ab". -/
def wsAB : WeightedSpans :=
  { analyzer := "char", document := "ab",
    weighted_spans := [⟨"a", [(0, 1)], 1.5⟩, ⟨"b", [(1, 2)], 2.5⟩] }

/-- The second span set of the repository test: document "xy". -/
def wsXY : WeightedSpans :=
  { analyzer := "char", document := "xy",
    weighted_spans := [⟨"xy", [(0, 2)], -4.5⟩] }

/-- The third span set of the repository test: document "abc". -/
def wsABC : WeightedSpans :=
  { analyzer := "char", document := "abc",
    weighted_spans := [⟨"a", [(0, 1)], 0.5⟩, ⟨"c", [(2, 3)], 3.5⟩] }

/-- The fourth span set of the repository test: document "xz". -/
def wsXZ : WeightedSpans :=
  { analyzer := "char", document := "xz",
    weighted_spans := [⟨"xz", [(0, 2)], 1.5⟩] }

/-- The first target of the repository test `test_prepare_weighted_spans`. -/
def sampleTargetOne : TargetExplanation :=
  { target := "one", feature_weights := { pos := some [], neg := some [] },
    weighted_spans := [wsAB, wsXY] }

/-- The second target of the repository test `test_prepare_weighted_spans`. -/
def sampleTargetTwo : TargetExplanation :=
  { target := "two", feature_weights := { pos := some [], neg := some [] },
    weighted_spans := [wsABC, wsXZ] }

/-- The two targets of the repository test `test_prepare_weighted_spans`. -/
def sampleTargets : List TargetExplanation :=
  [sampleTargetOne, sampleTargetTwo]

/-! ## Helper lemmas: the span merger fold -/

lemma addRange_length (l : List ℚ) (s e : ℕ) (w : ℚ) :
    (addRange l s e w).length = l.length := by
  simp [addRange]

lemma addRange_getD (l : List ℚ) (s e : ℕ) (w : ℚ) (i : ℕ) (h : i < l.length) :
    (addRange l s e w).getD i 0 =
      if s ≤ i ∧ i < e then l.getD i 0 + w else l.getD i 0 := by
  have h2 : i < (addRange l s e w).length := by rw [addRange_length]; exact h
  rw [List.getD_eq_get _ _ h2, List.getD_eq_get _ _ h]
  simp only [addRange]
  rw [List.get_mapIdx l _ i h]

lemma rangesFold_length (ranges : List (ℕ × ℕ)) (w : ℚ) (acc : List ℚ) :
    (ranges.foldl (fun acc r => addRange acc r.1 r.2 w) acc).length =
      acc.length := by
  induction ranges generalizing acc with
  | nil => rfl
  | cons r rs ih => rw [List.foldl_cons, ih, addRange_length]

lemma rangesFold_getD (ranges : List (ℕ × ℕ)) (w : ℚ) (acc : List ℚ) (i : ℕ)
    (h : i < acc.length) :
    (ranges.foldl (fun acc r => addRange acc r.1 r.2 w) acc).getD i 0 =
      acc.getD i 0 +
        w * ((ranges.filter fun r => decide (r.1 ≤ i ∧ i < r.2)).length : ℚ) := by
  induction ranges generalizing acc with
  | nil => simp
  | cons r rs ih =>
    rw [List.foldl_cons, ih _ (by rw [addRange_length]; exact h),
      addRange_getD _ _ _ _ _ h]
    by_cases hc : r.1 ≤ i ∧ i < r.2
    · rw [if_pos hc, List.filter_cons_of_pos (by simpa using hc),
        List.length_cons]
      push_cast
      ring
    · rw [if_neg hc, List.filter_cons_of_neg (by simpa using hc)]

/-- Number of half-open ranges of one entry covering position `i`. -/
def coverCount (entry : SpanEntry) (i : ℕ) : ℕ :=
  (entry.ranges.filter fun r => decide (r.1 ≤ i ∧ i < r.2)).length

lemma entriesFold_length (entries : List SpanEntry) (pd : Bool) (acc : List ℚ) :
    (entries.foldl (fun acc entry => entry.ranges.foldl
      (fun acc r => addRange acc r.1 r.2 (effWeight pd entry)) acc)
      acc).length = acc.length := by
  induction entries generalizing acc with
  | nil => rfl
  | cons a l ih => rw [List.foldl_cons, ih, rangesFold_length]

lemma entriesFold_getD (entries : List SpanEntry) (pd : Bool) (acc : List ℚ)
    (i : ℕ) (h : i < acc.length) :
    (entries.foldl (fun acc entry => entry.ranges.foldl
      (fun acc r => addRange acc r.1 r.2 (effWeight pd entry)) acc)
      acc).getD i 0 =
      acc.getD i 0 +
        (entries.map fun e => effWeight pd e * (coverCount e i : ℚ)).sum := by
  induction entries generalizing acc with
  | nil => simp
  | cons a l ih =>
    rw [List.foldl_cons, ih _ (by rw [rangesFold_length]; exact h),
      rangesFold_getD _ _ _ _ h]
    simp only [List.map_cons, List.sum_cons, coverCount]
    ring

lemma replicate_getD_zero (n i : ℕ) : (List.replicate n (0 : ℚ)).getD i 0 = 0 := by
  rcases lt_or_le i n with h | h
  · rw [List.getD_eq_getElem _ _ (by simpa using h), List.getElem_replicate]
  · rw [List.getD_eq_default _ _ (by simpa using h)]

lemma get_char_weights_length (ws : WeightedSpans) (pd : Bool) :
    (get_char_weights ws pd).length = ws.document.length := by
  rw [get_char_weights, entriesFold_length, List.length_replicate]

lemma get_char_weights_getD (ws : WeightedSpans) (pd : Bool) (i : ℕ)
    (h : i < ws.document.length) :
    (get_char_weights ws pd).getD i 0 =
      (ws.weighted_spans.map fun e => effWeight pd e * (coverCount e i : ℚ)).sum := by
  rw [get_char_weights, entriesFold_getD _ _ _ _ (by simpa using h),
    replicate_getD_zero, zero_add]

lemma filter_cover_length_le_one (rs : List (ℕ × ℕ)) (i : ℕ)
    (hd : rs.Pairwise fun r₁ r₂ => r₁.2 ≤ r₂.1 ∨ r₂.2 ≤ r₁.1) :
    (rs.filter fun r => decide (r.1 ≤ i ∧ i < r.2)).length ≤ 1 := by
  induction rs with
  | nil => simp
  | cons r rs ih =>
    obtain ⟨hr, hrs⟩ := List.pairwise_cons.mp hd
    by_cases hc : r.1 ≤ i ∧ i < r.2
    · rw [List.filter_cons_of_pos (by simpa using hc)]
      have hnil : rs.filter (fun r => decide (r.1 ≤ i ∧ i < r.2)) = [] := by
        rw [List.filter_eq_nil]
        intro a ha
        have hdisj := hr a ha
        simp only [decide_eq_true_eq]
        omega
      rw [hnil]
      simp
    · rw [List.filter_cons_of_neg (by simpa using hc)]
      exact ih hrs

lemma coverCount_of_disjoint (entry : SpanEntry) (hd : disjointRanges entry)
    (i : ℕ) :
    (coverCount entry i : ℚ) = if coversIdx entry i then 1 else 0 := by
  by_cases hcov : coversIdx entry i
  · rw [if_pos hcov]
    have hle : coverCount entry i ≤ 1 :=
      filter_cover_length_le_one entry.ranges i hd
    have hne : coverCount entry i ≠ 0 := by
      obtain ⟨r, hr, hrc⟩ := hcov
      have hmem : r ∈ entry.ranges.filter fun r => decide (r.1 ≤ i ∧ i < r.2) :=
        List.mem_filter.mpr ⟨hr, by simpa using hrc⟩
      intro h0
      rw [coverCount, List.length_eq_zero] at h0
      rw [h0] at hmem
      exact absurd hmem (List.not_mem_nil r)
    have hone : coverCount entry i = 1 :=
      le_antisymm hle (Nat.one_le_iff_ne_zero.mpr hne)
    rw [hone]
    norm_num
  · rw [if_neg hcov]
    have h0 : coverCount entry i = 0 := by
      rw [coverCount, List.length_eq_zero, List.filter_eq_nil]
      intro a ha
      simp only [decide_eq_true_eq]
      exact fun hca => hcov ⟨a, ha, hca⟩
    rw [h0]
    norm_num

lemma sum_mul_ite_filter (l : List SpanEntry) (f : SpanEntry → ℚ)
    (p : SpanEntry → Prop) [DecidablePred p] :
    (l.map fun e => f e * if p e then 1 else 0).sum =
      ((l.filter fun e => decide (p e)).map f).sum := by
  induction l with
  | nil => rfl
  | cons a l ih =>
    by_cases hp : p a
    · rw [List.map_cons, List.sum_cons, if_pos hp,
        List.filter_cons_of_pos (by simpa using hp), List.map_cons,
        List.sum_cons, ih]
      ring
    · rw [List.map_cons, List.sum_cons, if_neg hp,
        List.filter_cons_of_neg (by simpa using hp), ih]
      ring

/-- C1: for every document and entry list whose per-entry ranges are
disjoint (the data model invariant), the span merger returns an array of
the document length in which index i holds the sum of the (possibly
density-divided) weights of the entries with some half-open range
covering i, and 0 where no entry covers i; with density preservation each
entry weight is first divided by the total number of characters its
ranges cover (`effWeight`).  On the sample inputs, document "ab" yields
[1.5, 2.5] and document "xy" yields [-4.5, -4.5]. -/
theorem get_char_weights_spec (ws : WeightedSpans) (pd : Bool)
    (hdisj : ∀ e ∈ ws.weighted_spans, disjointRanges e) :
    ((get_char_weights ws pd).length = ws.document.length ∧
     ∀ i, i < ws.document.length →
       (get_char_weights ws pd).getD i 0 =
         ((ws.weighted_spans.filter fun e => decide (coversIdx e i)).map
           (effWeight pd)).sum) ∧
    get_char_weights wsAB false = [1.5, 2.5] ∧
    get_char_weights wsXY false = [-4.5, -4.5] := by
  refine ⟨⟨get_char_weights_length ws pd, ?_⟩, ?_, ?_⟩
  rotate_left
  · norm_num [wsAB, get_char_weights, addRange, effWeight, List.mapIdx,
      List.mapIdx.go, List.replicate, List.foldl]
  · norm_num [wsXY, get_char_weights, addRange, effWeight, List.mapIdx,
      List.mapIdx.go, List.replicate, List.foldl]
  intro i hi
  rw [get_char_weights_getD ws pd i hi]
  have hcc : ws.weighted_spans.map (fun e => effWeight pd e * (coverCount e i : ℚ)) =
      ws.weighted_spans.map (fun e => effWeight pd e * if coversIdx e i then 1 else 0) := by
    apply List.map_congr_left
    intro e he
    rw [coverCount_of_disjoint e (hdisj e he) i]
  rw [hcc]
  have := sum_mul_ite_filter ws.weighted_spans (effWeight pd)
    (fun e => coversIdx e i)
  simpa using this

/-- Witness for C1: the disjointness hypothesis holds at the sample span
set of document "ab", and the characterization evaluates there. -/
theorem get_char_weights_spec_witness :
    (∀ e ∈ wsAB.weighted_spans, disjointRanges e) ∧
    (get_char_weights wsAB false).length = wsAB.document.length ∧
    get_char_weights wsAB false = [1.5, 2.5] :=
  ⟨by decide,
   ((get_char_weights_spec wsAB false (by decide)).1).1,
   (get_char_weights_spec wsAB false (by decide)).2.1⟩

/-! ## Helper lemmas: the span preparer -/

lemma foldl_max_init_le (l : List ℕ) (init : ℕ) : init ≤ l.foldl max init := by
  induction l generalizing init with
  | nil => exact le_refl init
  | cons a l ih => exact le_trans (le_max_left init a) (ih (max init a))

lemma le_foldl_max (l : List ℕ) (init a : ℕ) (ha : a ∈ l) :
    a ≤ l.foldl max init := by
  induction l generalizing init with
  | nil => cases ha
  | cons b l ih =>
    rcases List.mem_cons.mp ha with rfl | ha
    · exact le_trans (le_max_right init a) (foldl_max_init_le l (max init a))
    · exact ih (max init b) ha

/-- The local weight ranges of the span sets at index `j`, one per
target having at least `j + 1` span sets. -/
def localRanges (targets : List TargetExplanation) (pd : Bool) (j : ℕ) :
    List ℚ :=
  targets.filterMap fun t =>
    (t.weighted_spans.get? j).map fun ws => max_or_0 (get_char_weights ws pd)

/-- The shared weight range of index group `j`: the maximum of the local
ranges of the span sets at index `j` over all targets, with fallback 1
when that maximum is 0. -/
def sharedWeightRange (targets : List TargetExplanation) (pd : Bool)
    (j : ℕ) : ℚ :=
  let m := max_or_0 (localRanges targets pd j)
  if m = 0 then 1 else m

/-- C2 counterexample: on the repository test input
(`test_prepare_weighted_spans`) all four span sets carry the same
vec_name (`none`), yet the first target receives weight ranges 3.5 and
4.5 for its two span sets — so span sets with matching vec_name do NOT
all share one weight_range; sharing is by index position instead. -/
theorem prepare_weighted_spans_vec_name_counterexample :
    prepare_weighted_spans sampleTargets false =
      [some [{ weighted_spans := wsAB, char_weights := [1.5, 2.5],
               weight_range := 3.5 },
             { weighted_spans := wsXY, char_weights := [-4.5, -4.5],
               weight_range := 4.5 }],
       some [{ weighted_spans := wsABC, char_weights := [0.5, 0, 3.5],
               weight_range := 3.5 },
             { weighted_spans := wsXZ, char_weights := [1.5, 1.5],
               weight_range := 4.5 }]] ∧
    wsAB.vec_name = wsXY.vec_name ∧ (3.5 : ℚ) < 4.5 := by
  refine ⟨?_, rfl, by norm_num⟩
  norm_num [prepare_weighted_spans, targetsCharWeights, maxSpanIdx,
    spansWeightRanges, sampleTargets, sampleTargetOne, sampleTargetTwo,
    wsAB, wsXY, wsABC, wsXZ,
    get_char_weights, addRange, effWeight, max_or_0, List.mapIdx,
    List.mapIdx.go, List.replicate, List.foldl, List.range, List.range.loop,
    List.filterMap, max_def, abs, List.zip, List.zipWith]

lemma targetsCharWeights_get? (targets : List TargetExplanation) (pd : Bool)
    (i : ℕ) (t : TargetExplanation) (h : targets.get? i = some t) :
    (targetsCharWeights targets pd).get? i =
      some (if t.weighted_spans.isEmpty then none
        else some (t.weighted_spans.map fun ws => get_char_weights ws pd)) := by
  rw [targetsCharWeights, List.get?_map, h, Option.map_some']

lemma length_le_maxSpanIdx (targets : List TargetExplanation) (pd : Bool)
    (i : ℕ) (t : TargetExplanation) (h : targets.get? i = some t) :
    t.weighted_spans.length ≤ maxSpanIdx targets pd := by
  have hmem : (if t.weighted_spans.isEmpty then none
      else some (t.weighted_spans.map fun ws => get_char_weights ws pd)) ∈
      targetsCharWeights targets pd := by
    rw [targetsCharWeights]
    exact List.mem_map_of_mem _ (List.get?_mem h)
  have hlen : t.weighted_spans.length =
      ((if t.weighted_spans.isEmpty then (none : Option (List (List ℚ)))
        else some (t.weighted_spans.map fun ws =>
          get_char_weights ws pd)).getD []).length := by
    by_cases h2 : t.weighted_spans.isEmpty
    · rw [if_pos h2, Option.getD_none, List.length_nil,
        List.isEmpty_iff.mp h2, List.length_nil]
    · rw [if_neg h2, Option.getD_some, List.length_map]
  rw [maxSpanIdx]
  exact hlen ▸ le_foldl_max _ 0 _ (List.mem_map_of_mem _ hmem)

lemma locals_eq_localRanges (targets : List TargetExplanation) (pd : Bool)
    (j : ℕ) :
    ((targetsCharWeights targets pd).filterMap fun cw =>
      ((cw.getD []).get? j).map fun char_weights => max_or_0 char_weights) =
      localRanges targets pd j := by
  rw [targetsCharWeights, List.filterMap_map, localRanges]
  have hfun : ((fun cw : Option (List (List ℚ)) =>
      ((cw.getD []).get? j).map fun char_weights => max_or_0 char_weights) ∘
      fun t : TargetExplanation =>
        if t.weighted_spans.isEmpty then none
        else some (t.weighted_spans.map fun ws => get_char_weights ws pd)) =
      fun t : TargetExplanation =>
        (t.weighted_spans.get? j).map fun ws =>
          max_or_0 (get_char_weights ws pd) := by
    funext t
    by_cases h : t.weighted_spans.isEmpty
    · have heq : t.weighted_spans = [] := List.isEmpty_iff.mp h
      simp [Function.comp, heq]
    · simp only [Function.comp_apply, if_neg h, Option.getD_some,
        List.get?_map, Option.map_map]
      rfl
  rw [hfun]

lemma spansWeightRanges_get? (targets : List TargetExplanation) (pd : Bool)
    (j : ℕ) (hj : j < maxSpanIdx targets pd) :
    (spansWeightRanges targets pd).get? j =
      some (sharedWeightRange targets pd j) := by
  rw [spansWeightRanges, List.get?_map, List.get?_range hj, Option.map_some']
  rw [sharedWeightRange]
  simp only [locals_eq_localRanges]

/-- C2 (amended): for every target list, the preparer keeps the nested
per-target, per-span-set order of the input with `none` for targets
without spans; every prepared span carries the merged character weights
of its span set; and all prepared spans originating at the same index
position within their targets' span lists (rather than: with matching
vec_name) carry the same weight_range, the maximum over that index group
of the local ranges max(abs(merged char_weights)), with fallback 1 when
that maximum is 0 (`sharedWeightRange`). -/
theorem prepare_weighted_spans_spec (targets : List TargetExplanation)
    (pd : Bool) :
    (prepare_weighted_spans targets pd).length = targets.length ∧
    ∀ i t, targets.get? i = some t →
      ((t.weighted_spans = [] →
        (prepare_weighted_spans targets pd).get? i = some none) ∧
       (t.weighted_spans ≠ [] → ∃ l,
        (prepare_weighted_spans targets pd).get? i = some (some l) ∧
        l.length = t.weighted_spans.length ∧
        ∀ j ws, t.weighted_spans.get? j = some ws →
          l.get? j = some { weighted_spans := ws,
                            char_weights := get_char_weights ws pd,
                            weight_range := sharedWeightRange targets pd j })) := by
  constructor
  · rw [prepare_weighted_spans, List.length_map, List.length_zip,
      targetsCharWeights, List.length_map, min_self]
  · intro i t hit
    have htcw := targetsCharWeights_get? targets pd i t hit
    constructor
    · intro hempty
      have hE : t.weighted_spans.isEmpty := by rw [hempty]; rfl
      rw [if_pos hE] at htcw
      have hzip : (targets.zip (targetsCharWeights targets pd)).get? i =
          some (t, none) :=
        (List.get?_zip_eq_some _ _ _ _).mpr ⟨hit, htcw⟩
      rw [prepare_weighted_spans, List.get?_map, hzip, Option.map_some']
    · intro hne
      have hE : ¬ t.weighted_spans.isEmpty := by
        simpa [List.isEmpty_iff] using hne
      rw [if_neg hE] at htcw
      have hzip : (targets.zip (targetsCharWeights targets pd)).get? i =
          some (t, some (t.weighted_spans.map fun ws =>
            get_char_weights ws pd)) :=
        (List.get?_zip_eq_some _ _ _ _).mpr ⟨hit, htcw⟩
      have hmax := length_le_maxSpanIdx targets pd i t hit
      refine ⟨(t.weighted_spans.zip
          (((t.weighted_spans.map fun ws => get_char_weights ws pd)).zip
            (spansWeightRanges targets pd))).map fun q =>
          { weighted_spans := q.1, char_weights := q.2.1,
            weight_range := q.2.2 },
        by rw [prepare_weighted_spans, List.get?_map, hzip,
          Option.map_some'], ?_, ?_⟩
      · rw [List.length_map, List.length_zip, List.length_zip,
          List.length_map, spansWeightRanges, List.length_map,
          List.length_range]
        omega
      · intro j ws hjws
        obtain ⟨hj, -⟩ := List.get?_eq_some.mp hjws
        have hj2 : j < maxSpanIdx targets pd := lt_of_lt_of_le hj hmax
        have hcws : ((t.weighted_spans.map fun ws =>
            get_char_weights ws pd)).get? j =
            some (get_char_weights ws pd) := by
          rw [List.get?_map, hjws, Option.map_some']
        have hswr := spansWeightRanges_get? targets pd j hj2
        have hzip2 : (((t.weighted_spans.map fun ws =>
            get_char_weights ws pd)).zip (spansWeightRanges targets pd)).get? j =
            some (get_char_weights ws pd, sharedWeightRange targets pd j) :=
          (List.get?_zip_eq_some _ _ _ _).mpr ⟨hcws, hswr⟩
        have hzip3 : (t.weighted_spans.zip (((t.weighted_spans.map fun ws =>
            get_char_weights ws pd)).zip (spansWeightRanges targets pd))).get? j =
            some (ws, get_char_weights ws pd, sharedWeightRange targets pd j) :=
          (List.get?_zip_eq_some _ _ _ _).mpr ⟨hjws, hzip2⟩
        rw [List.get?_map, hzip3, Option.map_some']

/-- Witness for C2 (amended) at the repository test input: the first
target is found at index 0, its span list is non-empty, and its first
prepared span carries the merged weights of `wsAB` and the shared weight
range of index group 0. -/
theorem prepare_weighted_spans_spec_witness :
    sampleTargets.get? 0 = some sampleTargetOne ∧
    sampleTargetOne.weighted_spans ≠ [] ∧
    ∃ l, (prepare_weighted_spans sampleTargets false).get? 0 = some (some l) ∧
      l.length = sampleTargetOne.weighted_spans.length ∧
      ∀ j ws, sampleTargetOne.weighted_spans.get? j = some ws →
        l.get? j = some { weighted_spans := ws,
                          char_weights := get_char_weights ws false,
                          weight_range := sharedWeightRange sampleTargets false j } :=
  ⟨rfl, by decide,
   ((prepare_weighted_spans_spec sampleTargets false).2 0 sampleTargetOne
     rfl).2 (by decide)⟩

/-! ## Color encoder theorems -/

/-- C3: for every weight and every weight_range > 0, `weight_color_hsl`
with the default min_lightness 0.8 returns hue 120 for positive and hue 0
for negative weights, saturation exactly 1, and lightness
1 − (1 − 0.8)·(|weight|/weight_range)^0.7; and `format_hsl` renders the
components as a CSS string with the hue unrounded and the percentages to
two decimal places. -/
theorem weight_color_hsl_spec (w r : ℚ) (hr : 0 < r) :
    ((0 < w → (weight_color_hsl w r 0.8).1 = 120) ∧
     (w < 0 → (weight_color_hsl w r 0.8).1 = 0) ∧
     (weight_color_hsl w r 0.8).2.1 = 1 ∧
     (weight_color_hsl w r 0.8).2.2 =
       1 - (1 - 0.8) * (((|w| : ℚ) : ℝ) / (r : ℝ)) ^ (0.7 : ℝ)) ∧
    (∀ hue : ℕ, ∀ s l : ℚ, format_hsl hue s l =
      "hsl(" ++ toString hue ++ ", " ++ formatPct2 s ++ ", " ++
        formatPct2 l ++ ")") ∧
    format_hsl 120 1 0.8 = "hsl(120, 100.00%, 80.00%)" ∧
    format_hsl 0 1 1 = "hsl(0, 100.00%, 100.00%)" := by
  refine ⟨⟨?_, ?_, rfl, ?_⟩, fun hue s l => rfl, ?_, ?_⟩
  · intro hw
    simp [weight_color_hsl, _hue, hw]
  · intro hw
    simp [weight_color_hsl, _hue, not_lt.mpr hw.le]
  · norm_num [weight_color_hsl, Rat.cast_abs]
  · norm_num [format_hsl, formatPct2, formatFixed, padZeros]
    rfl
  · norm_num [format_hsl, formatPct2, formatFixed, padZeros]
    rfl

/-- Witness for C3 at weight 1, weight_range 1. -/
theorem weight_color_hsl_spec_witness :
    (weight_color_hsl 1 1 0.8).1 = 120 ∧ (weight_color_hsl 1 1 0.8).2.1 = 1 :=
  ⟨(weight_color_hsl_spec 1 1 one_pos).1.1 one_pos,
   (weight_color_hsl_spec 1 1 one_pos).1.2.2.1⟩

lemma foldl_minAbs_spec (l : List FeatureWeight) (init : ℚ) :
    (l.foldl (fun acc fw => if |fw.weight| < |acc| then fw.weight else acc)
        init = init ∨
      ∃ fw ∈ l, l.foldl
        (fun acc fw => if |fw.weight| < |acc| then fw.weight else acc)
        init = fw.weight) ∧
    |l.foldl (fun acc fw => if |fw.weight| < |acc| then fw.weight else acc)
      init| ≤ |init| ∧
    ∀ fw ∈ l, |l.foldl
      (fun acc fw => if |fw.weight| < |acc| then fw.weight else acc)
      init| ≤ |fw.weight| := by
  induction l generalizing init with
  | nil => simp
  | cons a l ih =>
    simp only [List.foldl_cons]
    by_cases hlt : |a.weight| < |init|
    · rw [if_pos hlt]
      obtain ⟨ih₁, ih₂, ih₃⟩ := ih a.weight
      refine ⟨?_, le_trans ih₂ hlt.le, ?_⟩
      · rcases ih₁ with h | ⟨fw, hfw, h⟩
        · exact Or.inr ⟨a, List.mem_cons_self a l, h⟩
        · exact Or.inr ⟨fw, List.mem_cons_of_mem a hfw, h⟩
      · intro fw hfw
        rcases List.mem_cons.mp hfw with rfl | hfw
        · exact ih₂
        · exact ih₃ fw hfw
    · rw [if_neg hlt]
      obtain ⟨ih₁, ih₂, ih₃⟩ := ih init
      refine ⟨?_, ih₂, ?_⟩
      · rcases ih₁ with h | ⟨fw, hfw, h⟩
        · exact Or.inl h
        · exact Or.inr ⟨fw, List.mem_cons_of_mem a hfw, h⟩
      · intro fw hfw
        rcases List.mem_cons.mp hfw with rfl | hfw
        · exact le_trans ih₂ (not_lt.mp hlt)
        · exact ih₃ fw hfw

lemma argminAbs_spec (ws : List FeatureWeight) (h : ws ≠ []) :
    ∃ fw ∈ ws, argminAbs ws = fw.weight ∧
      ∀ fw2 ∈ ws, |fw.weight| ≤ |fw2.weight| := by
  cases ws with
  | nil => exact absurd rfl h
  | cons a l =>
    obtain ⟨h1, h2, h3⟩ := foldl_minAbs_spec l a.weight
    have hmin : ∀ fw2 ∈ a :: l, |argminAbs (a :: l)| ≤ |fw2.weight| := by
      intro fw2 hfw2
      rcases List.mem_cons.mp hfw2 with rfl | hfw2
      · exact h2
      · exact h3 fw2 hfw2
    rcases h1 with heq | ⟨fw, hfw, heq⟩
    · refine ⟨a, List.mem_cons_self a l, ?_, ?_⟩
      · exact heq
      · intro fw2 hfw2
        have := hmin fw2 hfw2
        rwa [show argminAbs (a :: l) = a.weight from heq] at this
    · refine ⟨fw, List.mem_cons_of_mem a hfw, heq, ?_⟩
      intro fw2 hfw2
      have := hmin fw2 hfw2
      rwa [show argminAbs (a :: l) = fw.weight from heq] at this

/-- C4: `remaining_weight_color_hsl` is total (never raises) and performs
the documented case analysis: with no remainder weights and zero range it
colors weight ±1 over range 1 (the most extreme color of that sign);
with no remainder weights but a nonzero range it colors sign × range over
that range; otherwise it colors the remainder weight of smallest absolute
value over the range. -/
theorem remaining_weight_color_hsl_spec (ws : List FeatureWeight) (r : ℚ)
    (pn : PosNeg) :
    (ws = [] → r = 0 →
      remaining_weight_color_hsl ws r pn = weight_color_hsl pn.sign 1 0.8) ∧
    (ws = [] → r ≠ 0 →
      remaining_weight_color_hsl ws r pn =
        weight_color_hsl (pn.sign * r) r 0.8) ∧
    (ws ≠ [] → ∃ fw ∈ ws, (∀ fw2 ∈ ws, |fw.weight| ≤ |fw2.weight|) ∧
      remaining_weight_color_hsl ws r pn =
        weight_color_hsl fw.weight r 0.8) := by
  refine ⟨?_, ?_, ?_⟩
  · intro h1 h2
    rw [remaining_weight_color_hsl, if_pos ⟨h1, h2⟩]
  · intro h1 h2
    rw [remaining_weight_color_hsl, if_neg (by tauto), if_pos h1]
  · intro h
    obtain ⟨fw, hfw, heq, hmin⟩ := argminAbs_spec ws h
    refine ⟨fw, hfw, hmin, ?_⟩
    rw [remaining_weight_color_hsl, if_neg (by tauto), if_neg h, heq]

/-- Witness for C4: all three cases at concrete inputs. -/
theorem remaining_weight_color_hsl_spec_witness :
    remaining_weight_color_hsl [] 0 PosNeg.pos = weight_color_hsl 1 1 0.8 ∧
    remaining_weight_color_hsl [] 2 PosNeg.neg =
      weight_color_hsl (PosNeg.neg.sign * 2) 2 0.8 ∧
    ∃ fw ∈ [(⟨"a", 3⟩ : FeatureWeight), ⟨"b", -1⟩],
      (∀ fw2 ∈ [(⟨"a", 3⟩ : FeatureWeight), ⟨"b", -1⟩],
        |fw.weight| ≤ |fw2.weight|) ∧
      remaining_weight_color_hsl [⟨"a", 3⟩, ⟨"b", -1⟩] 3 PosNeg.pos =
        weight_color_hsl fw.weight 3 0.8 :=
  ⟨by
    have h := (remaining_weight_color_hsl_spec [] 0 PosNeg.pos).1 rfl rfl
    simpa [PosNeg.sign] using h,
   (remaining_weight_color_hsl_spec [] 2 PosNeg.neg).2.1 rfl (by norm_num),
   (remaining_weight_color_hsl_spec [⟨"a", 3⟩, ⟨"b", -1⟩] 3 PosNeg.pos).2.2
     (by simp)⟩

/-- C9: hue 0 is assigned to weight exactly 0 — hue 120 appears only for
strictly positive weights, both in `weight_color_hsl` and in the
space-highlighting background produced by the replacer of
`_format_single_feature`. -/
theorem zero_weight_hue_spec :
    _hue 0 = 0 ∧
    (∀ w : ℚ, _hue w = 120 ↔ 0 < w) ∧
    (∀ w r ml : ℚ, (weight_color_hsl w r ml).1 = _hue w) ∧
    (∀ w : ℚ, ∀ n : ℕ, ∀ side : Side, ∃ rest : String,
      featureReplacer w n side =
        "<span style=\"" ++ ("background-color: hsl(" ++
          (toString (_hue w) ++ (", 80%, 70%)" ++ rest)))) := by
  refine ⟨rfl, ?_, fun w r ml => rfl, ?_⟩
  · intro w
    constructor
    · intro h
      by_contra hw
      rw [_hue, if_neg hw] at h
      exact absurd h (by norm_num)
    · intro h
      rw [_hue, if_pos h]
  · intro w n side
    refine ⟨"; " ++ ("margin: 0 " ++ ((match side with
        | Side.left => ("0.1em", "0")
        | Side.right => ("0", "0.1em")
        | Side.center => ("0.1em", "0.1em") : String × String).1 ++ (" 0 " ++
      ((match side with
        | Side.left => ("0.1em", "0")
        | Side.right => ("0", "0.1em")
        | Side.center => ("0.1em", "0.1em") : String × String).2 ++
      ("\" title=\"" ++ ((if n = 1 then "A space symbol"
        else toString n ++ " space symbols") ++ ("\">" ++
      (String.join (List.replicate n "&emsp;") ++ "</span>")))))))), ?_⟩
    simp only [featureReplacer, String.append_assoc]

/-- Witness for C9: the hue fed to the encoder at weight 0 over range 1. -/
theorem zero_weight_hue_spec_witness :
    (weight_color_hsl 0 1 1).1 = _hue 0 ∧ _hue 0 = 0 :=
  ⟨zero_weight_hue_spec.2.2.1 0 1 1, zero_weight_hue_spec.1⟩

/-! ## HTML escaping theorems -/

lemma escChar_of_ne (c : Char) (h1 : c ≠ '&') (h2 : c ≠ '<') (h3 : c ≠ '>')
    (h4 : c ≠ '"') : escChar c = String.singleton c := by
  unfold escChar
  split <;> simp_all

lemma html_escape_append (a b : String) :
    html_escape (a ++ b) = html_escape a ++ html_escape b := by
  apply String.ext
  simp [html_escape, String.toList, List.flatten_append]

lemma html_escape_data_mem (s : String) (c : Char)
    (hc : c ∈ (html_escape s).data) :
    ∃ x ∈ s.toList, c ∈ (escChar x).data := by
  rw [html_escape, String.data_join] at hc
  simp only [List.map_map] at hc
  obtain ⟨l, hl, hcl⟩ := List.mem_flatten.mp hc
  obtain ⟨x, hx, rfl⟩ := List.mem_map.mp hl
  exact ⟨x, hx, hcl⟩

lemma html_escape_no_unsafe (s : String) (c : Char)
    (hc : c ∈ (html_escape s).data) : c ≠ '<' ∧ c ≠ '>' ∧ c ≠ '"' := by
  obtain ⟨x, hx, hcx⟩ := html_escape_data_mem s c hc
  by_cases h1 : x = '&'
  · subst h1
    have hd : (escChar '&').data = ['&', 'a', 'm', 'p', ';'] := rfl
    rw [hd] at hcx
    fin_cases hcx <;> exact ⟨by decide, by decide, by decide⟩
  by_cases h2 : x = '<'
  · subst h2
    have hd : (escChar '<').data = ['&', 'l', 't', ';'] := rfl
    rw [hd] at hcx
    fin_cases hcx <;> exact ⟨by decide, by decide, by decide⟩
  by_cases h3 : x = '>'
  · subst h3
    have hd : (escChar '>').data = ['&', 'g', 't', ';'] := rfl
    rw [hd] at hcx
    fin_cases hcx <;> exact ⟨by decide, by decide, by decide⟩
  by_cases h4 : x = '"'
  · subst h4
    have hd : (escChar '"').data = ['&', 'q', 'u', 'o', 't', ';'] := rfl
    rw [hd] at hcx
    fin_cases hcx <;> exact ⟨by decide, by decide, by decide⟩
  · rw [escChar_of_ne x h1 h2 h3 h4] at hcx
    have hd : (String.singleton x).data = [x] := rfl
    rw [hd] at hcx
    have hcx2 := List.mem_singleton.mp hcx
    subst hcx2
    exact ⟨h2, h3, h4⟩

/-- C10: every document token and plain feature name is HTML-escaped with
quoting before being placed into the markup: `html_escape` is an
append-homomorphism mapping the characters `&ampersand <less-than
>greater-than "quote` to their entities and leaving all other characters
in place, its output never contains a raw `<`, `>` or `"`; `_colorize`
wraps exactly the escaped token, and `_format_single_feature` escapes the
feature before any space replacement. -/
theorem html_escaping_spec :
    (∀ a b : String, html_escape (a ++ b) = html_escape a ++ html_escape b) ∧
    (html_escape "&" = "&amp;" ∧ html_escape "<" = "&lt;" ∧
     html_escape ">" = "&gt;" ∧ html_escape "\"" = "&quot;" ∧
     html_escape "ab" = "ab") ∧
    (∀ s : String, ∀ c ∈ (html_escape s).data,
      c ≠ '<' ∧ c ≠ '>' ∧ c ≠ '"') ∧
    (∀ colorFor : ℚ → ℚ → String, ∀ w r : ℚ, ∃ pre : String,
      ∀ token : String, _colorize colorFor token w r =
        pre ++ (html_escape token ++ "</span>")) ∧
    (∀ f : String, ∀ w : ℚ, _format_single_feature f w false =
      html_escape f) ∧
    (∀ f : String, ∀ w : ℚ, _format_single_feature f w true =
      replace_spaces (html_escape f) (featureReplacer w)) := by
  refine ⟨html_escape_append, ⟨rfl, rfl, rfl, rfl, rfl⟩,
    html_escape_no_unsafe, ?_, fun f w => rfl, fun f w => rfl⟩
  intro colorFor w r
  by_cases hz : iscloseZero w
  · refine ⟨"<span style=\"opacity: " ++ (_weight_opacity w r ++ "\">"), ?_⟩
    intro token
    simp only [_colorize, if_pos hz, String.append_assoc]
  · refine ⟨"<span style=\"background-color: " ++ (colorFor w r ++
      ("; opacity: " ++ (_weight_opacity w r ++ ("\" title=\"" ++
        (formatFixed 3 w ++ "\">"))))), ?_⟩
    intro token
    simp only [_colorize, if_neg hz, String.append_assoc]

/-- Witness for C10: the escape homomorphism and the colorizer
decomposition at concrete inputs. -/
theorem html_escaping_spec_witness :
    html_escape ("a" ++ "<") = html_escape "a" ++ html_escape "<" ∧
    _format_single_feature "x" 1 false = html_escape "x" :=
  ⟨html_escaping_spec.1 "a" "<", html_escaping_spec.2.2.2.2.1 "x" 1⟩

/-! ## Text dispatcher theorems -/

/-- The block a recognized field stands for (the bodies of the four
data-heavy blocks are the `BlockRenderers` parameters). -/
def formatBlock (ext : BlockRenderers) (expl : Explanation)
    (hl_spaces : Bool) : ExplField → List String
  | ExplField.method => _method_lines expl
  | ExplField.description => _description_lines expl
  | ExplField.transition_features => ext.tfLines expl
  | ExplField.targets => ext.targetsLines expl hl_spaces
  | ExplField.feature_importances => ext.fiLines expl hl_spaces
  | ExplField.decision_tree => ext.treeLines expl

lemma formatTextLoop_eq_flatMap (ext : BlockRenderers) (expl : Explanation)
    (hl : Bool) (shown : List ExplField) :
    formatTextLoop ext expl hl shown = shown.flatMap fun key =>
      if fieldTruthy expl key then formatBlock ext expl hl key else [] := by
  induction shown with
  | nil => rfl
  | cons key rest ih =>
    rw [formatTextLoop, List.flatMap_cons, ih]
    congr 1
    cases h : fieldTruthy expl key
    · simp [h]
    · cases key <;> simp [formatBlock, h]

/-- C6: for every explanation, every block-renderer instantiation and
every field-selection list over the six recognized fields,
`format_as_text` emits exactly one block per selected field whose
attribute is truthy (present and non-empty), in selection order, skipping
the rest — and the error block comes first whenever the error field is
set, independent of the selection. -/
theorem format_as_text_spec (ext : BlockRenderers) (expl : Explanation)
    (shown : List ExplField) (hl : Bool) :
    format_as_text ext expl shown hl = String.intercalate "\n"
      ((if truthyStr expl.error then _error_lines expl else []) ++
        shown.flatMap fun key =>
          if fieldTruthy expl key then formatBlock ext expl hl key else []) := by
  rw [format_as_text, formatAsTextLines, formatTextLoop_eq_flatMap]

/-! ## HTML layout and purity theorems -/

/-- C7: `format_as_html` passes the caller's horizontal_layout flag to
the template whenever the explanation has more than one target, and
forces the vertical layout (flag false) when it has exactly one target,
regardless of the argument. -/
theorem format_as_html_layout_spec (colorFor : ℚ → ℚ → String)
    (expl : Explanation)
    (include_styles force_weights preserve_density hl_spaces
      horizontal_layout : Bool) :
    (1 < expl.targets.length →
      (format_as_html colorFor expl include_styles force_weights
        preserve_density hl_spaces horizontal_layout).horizontal_layout =
        horizontal_layout) ∧
    (expl.targets.length = 1 →
      (format_as_html colorFor expl include_styles force_weights
        preserve_density hl_spaces horizontal_layout).horizontal_layout =
        false) := by
  constructor
  · intro h
    simp only [format_as_html]
    rw [if_neg (by omega)]
  · intro h
    simp only [format_as_html]
    rw [if_pos h]

/-- Witness for C7: a two-target explanation keeps the flag, a one-target
explanation drops it. -/
theorem format_as_html_layout_spec_witness :
    (format_as_html (fun _ _ => "") { targets := sampleTargets } true true
      false false true).horizontal_layout = true ∧
    (format_as_html (fun _ _ => "") { targets := [sampleTargetOne] } true
      true false false true).horizontal_layout = false :=
  ⟨(format_as_html_layout_spec (fun _ _ => "") { targets := sampleTargets }
      true true false false true).1 (by decide),
   (format_as_html_layout_spec (fun _ _ => "") { targets := [sampleTargetOne] }
      true true false false true).2 rfl⟩

/-- C8: rendering is deterministic - the embedded renderers are pure
functions of their inputs (the Python sources mutate nothing: they only
build new lists and strings), so rendering the same explanation twice
with the same arguments yields identical output. -/
theorem rendering_deterministic (ext : BlockRenderers) (expl : Explanation)
    (shown : List ExplField) (hl : Bool) (colorFor : ℚ → ℚ → String)
    (include_styles force_weights preserve_density hl_spaces
      horizontal_layout : Bool) :
    format_as_text ext expl shown hl = format_as_text ext expl shown hl ∧
    format_as_html colorFor expl include_styles force_weights
        preserve_density hl_spaces horizontal_layout =
      format_as_html colorFor expl include_styles force_weights
        preserve_density hl_spaces horizontal_layout :=
  ⟨rfl, rfl⟩
